import Mathlib

/-!
Verification development for the visual-analysis core of the Stock-mind
dashboard: the technical-indicator enrichment engine (20-period SMA and
14-period Wilder-smoothed RSI), the simulated live-feed socket and its
timer lifecycle, and the live-tick sliding-window maintenance.

JavaScript numbers are modelled as `JNum`: either an exact rational or
`NaN`.  All arithmetic operators propagate `NaN`; comparisons with `NaN`
are false, and division by zero (which the source never reaches on the
paths proved below) is mapped to `NaN`.  `Number(x)` applied to a value
that is already a number is the identity, so coercion does not appear
explicitly; a non-numeric input value is represented as `NaN`, which is
what `Number` returns on it.
-/

inductive JNum where
  | num : ℚ → JNum
  | nan : JNum
deriving DecidableEq, Repr

def jadd : JNum → JNum → JNum
  | .num a, .num b => .num (a + b)
  | _, _ => .nan

def jsub : JNum → JNum → JNum
  | .num a, .num b => .num (a - b)
  | _, _ => .nan

def jmul : JNum → JNum → JNum
  | .num a, .num b => .num (a * b)
  | _, _ => .nan

def jdiv : JNum → JNum → JNum
  | .num a, .num b => if b = 0 then .nan else .num (a / b)
  | _, _ => .nan

def jlt : JNum → JNum → Bool
  | .num a, .num b => decide (a < b)
  | _, _ => false

def jabs : JNum → JNum
  | .num a => .num |a|
  | .nan => .nan

/-- A chart data point: `date`/`value` plus optional per-symbol comparison
fields (a JS object's extra keys) and the two indicator annotations. -/
structure Pt where
  date : String
  value : JNum
  comps : List (String × JNum)
  sma : Option JNum
  rsi : Option JNum
deriving DecidableEq, Repr

def dPt : Pt := ⟨"", .num 0, [], none, none⟩

def mkPt (q : ℚ) : Pt := ⟨"", .num q, [], none, none⟩

/-- The raw `date`/`value`/comparison data of a point, with the two
derived indicator fields cleared. -/
def stripIndicators (p : Pt) : Pt := ⟨p.date, p.value, p.comps, none, none⟩

/-- Inner SMA loop of `enrichDataWithIndicators`: `sum` over
`enriched[i - j].value` for `j = 0 .. 19`.  The loop never writes the
`value` fields, so they equal the coerced input values `vals`. -/
def smaSum (vals : List JNum) (i : Nat) : JNum :=
  (List.range 20).foldl (fun sum j => jadd sum (vals.getD (i - j) (.num 0))) (.num 0)

/-- Result of one iteration of the enrichment loop: the two annotations
written to `current` plus the updated Wilder smoothing state. -/
structure StepOut where
  sma : Option JNum
  rsi : Option JNum
  avgGain : JNum
  avgLoss : JNum

/-- One iteration of the enrichment loop body (source lines 82-132) at
index `i` with `price = current.value` and running state
`avgGain`/`avgLoss`. -/
def enrichStep (vals : List JNum) (i : Nat) (price avgGain avgLoss : JNum) : StepOut :=
  let sma : Option JNum := if 19 ≤ i then some (jdiv (smaSum vals i) (.num 20)) else none
  if i = 0 then
    ⟨sma, none, avgGain, avgLoss⟩
  else
    let change := jsub price (vals.getD (i - 1) (.num 0))
    let gain := if jlt (.num 0) change then change else .num 0
    let loss := if jlt change (.num 0) then jabs change else .num 0
    if i ≤ 14 then
      let ag := jadd avgGain gain
      let al := jadd avgLoss loss
      if i = 14 then
        let firstAvgGain := jdiv ag (.num 14)
        let firstAvgLoss := jdiv al (.num 14)
        let rs := if firstAvgLoss = .num 0 then .num 100 else jdiv firstAvgGain firstAvgLoss
        ⟨sma, some (jsub (.num 100) (jdiv (.num 100) (jadd (.num 1) rs))),
          firstAvgGain, firstAvgLoss⟩
      else
        ⟨sma, none, ag, al⟩
    else
      let ag := jdiv (jadd (jmul avgGain (.num 13)) gain) (.num 14)
      let al := jdiv (jadd (jmul avgLoss (.num 13)) loss) (.num 14)
      let rs := if al = .num 0 then .num 100 else jdiv ag al
      ⟨sma, some (jsub (.num 100) (jdiv (.num 100) (jadd (.num 1) rs))), ag, al⟩

/-- The enrichment loop (source lines 82-132), walking the copied array
with index `i` and the mutable Wilder state. -/
def enrichGo (vals : List JNum) : List Pt → Nat → JNum → JNum → List Pt
  | [], _, _, _ => []
  | current :: rest, i, avgGain, avgLoss =>
    let st := enrichStep vals i current.value avgGain avgLoss
    { current with sma := st.sma, rsi := st.rsi }
      :: enrichGo vals rest (i + 1) st.avgGain st.avgLoss

/-- The Technical Indicator Helper (source lines 70-134).  The spread on
line 74 copies every point before the loop mutates `sma`/`rsi`, so the
function is pure; `Number(item.value)` is the identity on `JNum`. -/
def enrichDataWithIndicators (rawData : List Pt) : List Pt :=
  if rawData.length = 0 then []
  else
    let enriched := rawData.map (fun item => { item with value := item.value })
    enrichGo (enriched.map (fun p => p.value)) enriched 0 (.num 0) (.num 0)

/-- A JS value passed to the enrichment helper: either an array of points
or anything that fails the `Array.isArray` guard on line 71. -/
inductive JSValue where
  | arr : List Pt → JSValue
  | nonArray : JSValue

def enrichDataTotal : JSValue → List Pt
  | .nonArray => []
  | .arr rawData => enrichDataWithIndicators rawData

/-! ## Live feed simulator (MockWebSocket, source lines 36-67)

Timer state of one `MockWebSocket`: the constructor schedules a 300 ms
connection `setTimeout` whose handle is never stored; `close()` clears
only `this.intervalId`.  `connectTimeoutFire` is the runtime firing the
pending constructor timeout (it fires at most once and only if it has
not fired yet); it calls `onopen` and `startStream()`, which installs
the 1-second tick interval. -/

structure MockWebSocketState where
  pendingConnect : Bool
  intervalId : Bool
deriving DecidableEq, Repr

def mockWebSocketNew : MockWebSocketState := ⟨true, false⟩

def connectTimeoutFire (s : MockWebSocketState) : MockWebSocketState :=
  if s.pendingConnect then ⟨false, true⟩ else s

/-- `close()` (source lines 63-66): `if (this.intervalId) clearInterval(...)`.
The pending connection timeout is NOT cleared. -/
def socketClose (s : MockWebSocketState) : MockWebSocketState :=
  { s with intervalId := false }

/-- A tick interval firing delivers a tick to `onmessage` iff the
interval is installed. -/
def emitsTick (s : MockWebSocketState) : Bool := s.intervalId

/-- The simulated per-tick fractional change (source line 56):
`(Math.random() - 0.5) * 0.004`, with `Math.random()` as parameter `r`. -/
def tickChange (r : ℚ) : ℚ := (r - 1/2) * (4/1000)

/-! ## Live tick handling (ws.onmessage, source lines 275-305) -/

/-- Inputs of one tick delivery: the wall-clock timestamp
(`new Date().toISOString()`), the payload `change`, and the independent
random change drawn for each comparison symbol (line 294). -/
structure TickIn where
  now : String
  change : ℚ
  compChanges : String → ℚ

/-- `Number(x.toFixed(2))`: round to 2 decimal places. -/
def toFixed2 (q : ℚ) : ℚ := (round (q * 100) : ℤ) / 100

def jfix2 : JNum → JNum
  | .num q => .num (toFixed2 q)
  | .nan => .nan

/-- JS truthiness of `lastItem[comp]`: `undefined`, `NaN` and `0` are
falsy; any other number is truthy. -/
def truthy : Option JNum → Bool
  | some (.num q) => decide (q ≠ 0)
  | _ => false

/-- The `newPoint` built by the onmessage handler (source lines 281-297). -/
def newTickPoint (comparisons : List String) (t : TickIn) (lastItem : Pt) : Pt :=
  { date := t.now
    value := jfix2 (jmul lastItem.value (jadd (.num 1) (.num t.change)))
    comps := comparisons.filterMap (fun comp =>
      if truthy (lastItem.comps.lookup comp) then
        some (comp, jfix2 (jmul ((lastItem.comps.lookup comp).getD (.num 0))
          (jadd (.num 1) (.num (t.compChanges comp)))))
      else none)
    sma := none
    rsi := none }

/-- One tick applied to the chart data (the `setData` updater, source
lines 278-304): append, `shift()` when the length exceeds 100, then
re-enrich the whole window. -/
def onTick (comparisons : List String) (t : TickIn) (prevData : List Pt) : List Pt :=
  if prevData.length = 0 then prevData
  else
    let lastItem := prevData.getD (prevData.length - 1) dPt
    let newData := prevData ++ [newTickPoint comparisons t lastItem]
    let trimmed := if 100 < newData.length then newData.tail else newData
    enrichDataWithIndicators trimmed

def runTicks (comparisons : List String) (s : List Pt) (ts : List TickIn) : List Pt :=
  ts.foldl (fun d t => onTick comparisons t d) s

/-! ## Specification-side definitions (from spec §4.1)

These follow the spec's wording (gains and losses via `max`, the
14-element seed averages, the Wilder recurrence indexed from 14), to be
compared with the code-derived definitions above. -/

def gainAt (v : List ℚ) (i : Nat) : ℚ := max (v.getD i 0 - v.getD (i - 1) 0) 0

def lossAt (v : List ℚ) (i : Nat) : ℚ := max (v.getD (i - 1) 0 - v.getD i 0) 0

def gainSum (v : List ℚ) (n : Nat) : ℚ := ((List.range n).map (fun k => gainAt v (k + 1))).sum

def lossSum (v : List ℚ) (n : Nat) : ℚ := ((List.range n).map (fun k => lossAt v (k + 1))).sum

/-- Wilder smoothing state at index `14 + j`: seeded at index 14 by the
simple averages of the first 14 gains/losses, then
`avg' = (avg * 13 + new) / 14`. -/
def wilderAvg (v : List ℚ) : Nat → ℚ × ℚ
  | 0 => (gainSum v 14 / 14, lossSum v 14 / 14)
  | j + 1 =>
    (((wilderAvg v j).1 * 13 + gainAt v (14 + (j + 1))) / 14,
     ((wilderAvg v j).2 * 13 + lossAt v (14 + (j + 1))) / 14)

def wilderRs (v : List ℚ) (i : Nat) : ℚ :=
  if (wilderAvg v (i - 14)).2 = 0 then 100 else (wilderAvg v (i - 14)).1 / (wilderAvg v (i - 14)).2

def wilderRsi (v : List ℚ) (i : Nat) : ℚ := 100 - 100 / (1 + wilderRs v i)

/-- Wilder state entering loop iteration `n` (i.e. after iteration
`n - 1`): running sums of gains/losses up to index `n - 1` while
`n ≤ 14`, the smoothed averages afterwards. -/
def stateEnter (v : List ℚ) (n : Nat) : ℚ × ℚ :=
  if n ≤ 14 then (gainSum v (n - 1), lossSum v (n - 1)) else wilderAvg v (n - 15)

/-- The last `n` elements of a list. -/
def lastN {α : Type} (n : Nat) (l : List α) : List α := l.drop (l.length - n)

/-- A point whose `value` is `NaN` (a non-numeric input value after
`Number` coercion). -/
def nanPt : Pt := ⟨"", .nan, [], none, none⟩

/-- A fixed concrete tick input for witnesses. -/
def tIn0 : TickIn := ⟨"t", 0, fun _ => 0⟩

/-- A JS number that is an actual (non-`NaN`) nonnegative number. -/
def IsNN (x : JNum) : Prop := ∃ q : ℚ, 0 ≤ q ∧ x = .num q

/-! ## Transport lemmas between `JNum` and `ℚ` -/

@[simp] lemma jadd_num (a b : ℚ) : jadd (.num a) (.num b) = .num (a + b) := rfl

@[simp] lemma jsub_num (a b : ℚ) : jsub (.num a) (.num b) = .num (a - b) := rfl

@[simp] lemma jmul_num (a b : ℚ) : jmul (.num a) (.num b) = .num (a * b) := rfl

lemma jdiv_num (a b : ℚ) (h : b ≠ 0) : jdiv (.num a) (.num b) = .num (a / b) := by
  simp [jdiv, h]

@[simp] lemma jlt_num (a b : ℚ) : jlt (.num a) (.num b) = decide (a < b) := rfl

@[simp] lemma jadd_nan_right (a : JNum) : jadd a .nan = .nan := by cases a <;> rfl

@[simp] lemma jadd_nan_left (a : JNum) : jadd .nan a = .nan := rfl

lemma getD_map_eq {α β : Type} (f : α → β) (l : List α) (n : Nat) (d : α) :
    (l.map f).getD n (f d) = f (l.getD n d) := by
  induction l generalizing n with
  | nil => simp [List.getD]
  | cons a t ih => cases n <;> simp [List.getD, ih]

lemma foldl_jadd_num (g : Nat → ℚ) :
    ∀ (L : List Nat) (a : ℚ),
      L.foldl (fun s j => jadd s (.num (g j))) (.num a) = .num (a + (L.map g).sum) := by
  intro L
  induction L with
  | nil => intro a; simp
  | cons x t ih => intro a; simp [ih, add_assoc]

lemma smaSum_num (v : List ℚ) (i : Nat) :
    smaSum (v.map JNum.num) i
      = .num (((List.range 20).map (fun j => v.getD (i - j) 0)).sum) := by
  have hb : (fun (s : JNum) (j : Nat) => jadd s ((v.map JNum.num).getD (i - j) (.num 0)))
      = fun s j => jadd s (.num (v.getD (i - j) 0)) := by
    funext s j
    rw [getD_map_eq JNum.num v (i - j) 0]
  rw [smaSum, hb, foldl_jadd_num, zero_add]

lemma rangeSum_slice (v : List ℚ) :
    ∀ (N i : Nat), N ≤ i + 1 → i < v.length →
      ((List.range N).map (fun j => v.getD (i - j) 0)).sum
        = ((v.drop (i + 1 - N)).take N).sum := by
  intro N
  induction N with
  | zero => intro i _ _; simp
  | succ N ih =>
    intro i hN hi
    have hNi : N ≤ i := by omega
    have hlt : i - N < v.length := by omega
    rw [List.range_succ, List.map_append, List.sum_append]
    have hdrop : v.drop (i - N) = v[i - N] :: v.drop (i - N + 1) := List.drop_eq_getElem_cons hlt
    have h1 : i + 1 - (N + 1) = i - N := by omega
    have h2 : i - N + 1 = i + 1 - N := by omega
    have hg : v.getD (i - N) 0 = v[i - N] := by
      simp [List.getD_eq_getElem?_getD, List.getElem?_eq_getElem hlt]
    rw [h1, hdrop, List.take_succ_cons, List.sum_cons, h2, ← ih i (by omega) hi]
    simp [List.getElem?_eq_getElem hlt, add_comm]

/-! ## Arithmetic facts about the specification-side recurrences -/

lemma gain_if_eq (c : ℚ) :
    (if jlt (.num 0) (.num c) then JNum.num c else .num 0) = .num (max c 0) := by
  by_cases h : 0 < c
  · simp [h, max_eq_left h.le]
  · simp [h, max_eq_right (not_lt.mp h)]

lemma loss_if_eq (c : ℚ) :
    (if jlt (.num c) (.num 0) then jabs (.num c) else .num 0) = .num (max (-c) 0) := by
  by_cases h : c < 0
  · simp [h, jabs, abs_of_neg h, max_eq_left (by linarith : (0:ℚ) ≤ -c)]
  · simp [h, max_eq_right (by linarith [not_lt.mp h] : (-c:ℚ) ≤ 0)]

lemma gainSum_succ (v : List ℚ) (n : Nat) :
    gainSum v (n + 1) = gainSum v n + gainAt v (n + 1) := by
  rw [gainSum, gainSum, List.range_succ, List.map_append, List.sum_append]
  simp

lemma lossSum_succ (v : List ℚ) (n : Nat) :
    lossSum v (n + 1) = lossSum v n + lossAt v (n + 1) := by
  rw [lossSum, lossSum, List.range_succ, List.map_append, List.sum_append]
  simp

lemma gainAt_nonneg (v : List ℚ) (i : Nat) : 0 ≤ gainAt v i := le_max_right _ _

lemma lossAt_nonneg (v : List ℚ) (i : Nat) : 0 ≤ lossAt v i := le_max_right _ _

lemma gainSum_nonneg (v : List ℚ) (n : Nat) : 0 ≤ gainSum v n := by
  apply List.sum_nonneg
  intro x hx
  obtain ⟨k, _, rfl⟩ := List.mem_map.mp hx
  exact gainAt_nonneg v (k + 1)

lemma lossSum_nonneg (v : List ℚ) (n : Nat) : 0 ≤ lossSum v n := by
  apply List.sum_nonneg
  intro x hx
  obtain ⟨k, _, rfl⟩ := List.mem_map.mp hx
  exact lossAt_nonneg v (k + 1)

lemma wilderAvg_nonneg (v : List ℚ) :
    ∀ j, 0 ≤ (wilderAvg v j).1 ∧ 0 ≤ (wilderAvg v j).2 := by
  intro j
  induction j with
  | zero =>
    constructor
    · exact div_nonneg (gainSum_nonneg v 14) (by norm_num)
    · exact div_nonneg (lossSum_nonneg v 14) (by norm_num)
  | succ j ih =>
    constructor
    · exact div_nonneg (by nlinarith [ih.1, gainAt_nonneg v (14 + (j + 1))]) (by norm_num)
    · exact div_nonneg (by nlinarith [ih.2, lossAt_nonneg v (14 + (j + 1))]) (by norm_num)

lemma wilderRs_nonneg (v : List ℚ) (i : Nat) : 0 ≤ wilderRs v i := by
  rw [wilderRs]
  split
  · norm_num
  · exact div_nonneg (wilderAvg_nonneg v (i - 14)).1 (wilderAvg_nonneg v (i - 14)).2

lemma one_add_wilderRs_ne (v : List ℚ) (i : Nat) : 1 + wilderRs v i ≠ 0 := by
  have h := wilderRs_nonneg v i
  intro he
  linarith

lemma stateEnter_nonneg (v : List ℚ) (n : Nat) :
    0 ≤ (stateEnter v n).1 ∧ 0 ≤ (stateEnter v n).2 := by
  rw [stateEnter]
  split
  · exact ⟨gainSum_nonneg v (n - 1), lossSum_nonneg v (n - 1)⟩
  · exact wilderAvg_nonneg v (n - 15)

lemma stateEnter_le14 (v : List ℚ) (n : Nat) (h : n ≤ 14) :
    stateEnter v n = (gainSum v (n - 1), lossSum v (n - 1)) := by
  rw [stateEnter, if_pos h]

lemma stateEnter_gt14 (v : List ℚ) (n : Nat) (h : 14 < n) :
    stateEnter v n = wilderAvg v (n - 15) := by
  rw [stateEnter, if_neg (by omega)]

lemma rs_if_eq (v : List ℚ) (n : Nat) :
    (if JNum.num (wilderAvg v (n - 14)).2 = .num 0 then JNum.num 100
      else jdiv (.num (wilderAvg v (n - 14)).1) (.num (wilderAvg v (n - 14)).2))
    = .num (wilderRs v n) := by
  rw [wilderRs]
  by_cases hL : (wilderAvg v (n - 14)).2 = 0
  · simp [hL]
  · rw [if_neg (by simp [hL]), if_neg hL, jdiv_num _ _ hL]

lemma rsi_if_eq (v : List ℚ) (n : Nat) :
    jsub (.num 100) (jdiv (.num 100) (jadd (.num 1) (.num (wilderRs v n)))) = .num (wilderRsi v n) := by
  rw [jadd_num, jdiv_num _ _ (one_add_wilderRs_ne v n), jsub_num, wilderRsi]

/-- One enrichment-loop iteration on a series of actual numbers computes
exactly the specification's SMA window mean and Wilder RSI recurrence,
and carries the specification's smoothing state forward. -/
lemma enrichStep_spec (v : List ℚ) (n : Nat) :
    enrichStep (v.map JNum.num) n (.num (v.getD n 0))
        (.num (stateEnter v n).1) (.num (stateEnter v n).2)
      = ⟨if 19 ≤ n then some (.num (((List.range 20).map (fun j => v.getD (n - j) 0)).sum / 20))
           else none,
         if n < 14 then none else some (.num (wilderRsi v n)),
         .num (stateEnter v (n + 1)).1, .num (stateEnter v (n + 1)).2⟩ := by
  have hsma : (if 19 ≤ n then some (jdiv (smaSum (v.map JNum.num) n) (.num 20)) else none)
      = (if 19 ≤ n then some (.num (((List.range 20).map (fun j => v.getD (n - j) 0)).sum / 20))
         else none) := by
    split
    · rw [smaSum_num, jdiv_num _ _ (by norm_num)]
    · rfl
  by_cases hn0 : n = 0
  · subst hn0
    simp only [enrichStep, if_pos rfl, hsma]
    norm_num [stateEnter, gainSum, lossSum]
  · have hprev : (v.map JNum.num).getD (n - 1) (.num 0) = .num (v.getD (n - 1) 0) :=
      getD_map_eq JNum.num v (n - 1) 0
    have hgain : (if jlt (.num 0) (jsub (.num (v.getD n 0)) (.num (v.getD (n - 1) 0)))
        then jsub (.num (v.getD n 0)) (.num (v.getD (n - 1) 0)) else .num 0)
        = .num (gainAt v n) := by
      rw [jsub_num, gain_if_eq]
      rfl
    have hloss : (if jlt (jsub (.num (v.getD n 0)) (.num (v.getD (n - 1) 0))) (.num 0)
        then jabs (jsub (.num (v.getD n 0)) (.num (v.getD (n - 1) 0))) else .num 0)
        = .num (lossAt v n) := by
      rw [jsub_num, loss_if_eq, lossAt, neg_sub]
    simp only [enrichStep, if_neg hn0, hprev, hgain, hloss, hsma]
    by_cases hn14 : n ≤ 14
    · by_cases hneq : n = 14
      · subst hneq
        rw [if_pos (by omega), if_pos rfl, stateEnter_le14 v 14 (by omega)]
        have hgs : gainSum v (14 - 1) + gainAt v 14 = gainSum v 14 := by
          have h := gainSum_succ v 13
          norm_num at h ⊢
          linarith
        have hls : lossSum v (14 - 1) + lossAt v 14 = lossSum v 14 := by
          have h := lossSum_succ v 13
          norm_num at h ⊢
          linarith
        have hw0 : wilderAvg v 0 = (gainSum v 14 / 14, lossSum v 14 / 14) := rfl
        simp only [jadd_num, hgs, hls, jdiv_num _ _ (by norm_num : (14:ℚ) ≠ 0)]
        have h1 : JNum.num (gainSum v 14 / 14) = .num (wilderAvg v (14 - 14)).1 := by
          norm_num [hw0]
        have h2 : JNum.num (lossSum v 14 / 14) = .num (wilderAvg v (14 - 14)).2 := by
          norm_num [hw0]
        rw [h1, h2, rs_if_eq v 14, rsi_if_eq v 14, stateEnter_gt14 v 15 (by omega)]
        norm_num [hw0]
      · rw [if_pos hn14, if_neg hneq, stateEnter_le14 v n (by omega)]
        have hgs : gainSum v (n - 1) + gainAt v n = gainSum v n := by
          have h := gainSum_succ v (n - 1)
          have hn' : n - 1 + 1 = n := by omega
          rw [hn'] at h
          linarith
        have hls : lossSum v (n - 1) + lossAt v n = lossSum v n := by
          have h := lossSum_succ v (n - 1)
          have hn' : n - 1 + 1 = n := by omega
          rw [hn'] at h
          linarith
        rw [stateEnter_le14 v (n + 1) (by omega)]
        simp only [jadd_num, hgs, hls, Nat.add_sub_cancel]
        rw [if_pos (by omega : n < 14)]
    · rw [if_neg hn14, stateEnter_gt14 v n (by omega)]
      have hw : n - 14 = (n - 15) + 1 := by omega
      have h14n : 14 + ((n - 15) + 1) = n := by omega
      have hg1 : JNum.num (((wilderAvg v (n - 15)).1 * 13 + gainAt v n) / 14)
          = .num (wilderAvg v (n - 14)).1 := by
        rw [hw]
        simp [wilderAvg, h14n]
      have hl1 : JNum.num (((wilderAvg v (n - 15)).2 * 13 + lossAt v n) / 14)
          = .num (wilderAvg v (n - 14)).2 := by
        rw [hw]
        simp [wilderAvg, h14n]
      simp only [jmul_num, jadd_num, jdiv_num _ _ (by norm_num : (14:ℚ) ≠ 0), hg1, hl1]
      rw [rs_if_eq v n, rsi_if_eq v n, stateEnter_gt14 v (n + 1) (by omega)]
      have hw' : n + 1 - 15 = n - 14 := by omega
      rw [hw', if_neg (by omega : ¬ n < 14)]

/-! ## List-level lemmas about the enrichment loop -/

lemma enrichGo_cons (vals : List JNum) (c : Pt) (rest : List Pt) (i : Nat) (ag al : JNum) :
    enrichGo vals (c :: rest) i ag al
      = { c with
          sma := (enrichStep vals i c.value ag al).sma
          rsi := (enrichStep vals i c.value ag al).rsi }
        :: enrichGo vals rest (i + 1) (enrichStep vals i c.value ag al).avgGain
            (enrichStep vals i c.value ag al).avgLoss := rfl

/-- RSI fields produced by the loop on an all-number series agree with
the specification recurrence `wilderRsi`. -/
lemma enrichGo_rsi (v : List ℚ) :
    ∀ (rest : List Pt) (n : Nat),
      (∀ j, j < rest.length → (rest.getD j dPt).value = .num (v.getD (n + j) 0)) →
      ∀ j, j < rest.length →
        ((enrichGo (v.map JNum.num) rest n (.num (stateEnter v n).1)
            (.num (stateEnter v n).2)).getD j dPt).rsi
          = if n + j < 14 then none else some (.num (wilderRsi v (n + j))) := by
  intro rest
  induction rest with
  | nil => intro n _ j hj; simp at hj
  | cons c rest ih =>
    intro n hval j hj
    have hc : c.value = .num (v.getD n 0) := by
      have h0 := hval 0 (by simp)
      simpa using h0
    rw [enrichGo_cons, hc, enrichStep_spec]
    cases j with
    | zero =>
      simp
    | succ j =>
      have hval' : ∀ j', j' < rest.length →
          (rest.getD j' dPt).value = .num (v.getD (n + 1 + j') 0) := by
        intro j' hj'
        have h1 := hval (j' + 1) (by simpa using Nat.succ_lt_succ hj')
        have hidx : n + (j' + 1) = n + 1 + j' := by omega
        rw [hidx] at h1
        simpa using h1
      have h2 := ih (n + 1) hval' j (by simpa using Nat.lt_of_succ_lt_succ hj)
      have hidx : n + 1 + j = n + (j + 1) := by omega
      rw [hidx] at h2
      simpa using h2

lemma enrichStep_sma (vals : List JNum) (i : Nat) (price ag al : JNum) :
    (enrichStep vals i price ag al).sma
      = if 19 ≤ i then some (jdiv (smaSum vals i) (.num 20)) else none := by
  simp only [enrichStep]
  split_ifs <;> rfl

/-- SMA fields produced by the loop, for an arbitrary `vals` array. -/
lemma enrichGo_sma (vals : List JNum) :
    ∀ (rest : List Pt) (n : Nat) (ag al : JNum) (j : Nat), j < rest.length →
      ((enrichGo vals rest n ag al).getD j dPt).sma
        = if 19 ≤ n + j then some (jdiv (smaSum vals (n + j)) (.num 20)) else none := by
  intro rest
  induction rest with
  | nil => intro n ag al j hj; simp at hj
  | cons c rest ih =>
    intro n ag al j hj
    rw [enrichGo_cons]
    cases j with
    | zero => simp [enrichStep_sma]
    | succ j =>
      have h2 := ih (n + 1) (enrichStep vals n c.value ag al).avgGain
        (enrichStep vals n c.value ag al).avgLoss j (by simpa using Nat.lt_of_succ_lt_succ hj)
      have hidx : n + 1 + j = n + (j + 1) := by omega
      rw [hidx] at h2
      simpa using h2

lemma stripIndicators_set (c : Pt) (s r : Option JNum) :
    stripIndicators { c with sma := s, rsi := r } = stripIndicators c := rfl

/-- The loop only writes the `sma`/`rsi` fields: stripping them recovers
the input list. -/
lemma enrichGo_strip (vals : List JNum) :
    ∀ (rest : List Pt) (n : Nat) (ag al : JNum),
      (enrichGo vals rest n ag al).map stripIndicators = rest.map stripIndicators := by
  intro rest
  induction rest with
  | nil => intro n ag al; rfl
  | cons c rest ih =>
    intro n ag al
    rw [enrichGo_cons, List.map_cons, List.map_cons, stripIndicators_set, ih]

lemma enrichGo_length (vals : List JNum) (rest : List Pt) (n : Nat) (ag al : JNum) :
    (enrichGo vals rest n ag al).length = rest.length := by
  have h := congrArg List.length (enrichGo_strip vals rest n ag al)
  simpa using h

/-- The loop output depends on the input points only through their
raw `date`/`value`/`comps` data. -/
lemma enrichGo_congr (vals : List JNum) :
    ∀ (X Y : List Pt) (n : Nat) (ag al : JNum),
      X.map stripIndicators = Y.map stripIndicators →
      enrichGo vals X n ag al = enrichGo vals Y n ag al := by
  intro X
  induction X with
  | nil =>
    intro Y n ag al h
    rw [List.map_nil] at h
    rw [List.map_eq_nil_iff.mp h.symm]
  | cons a X ih =>
    intro Y n ag al h
    cases Y with
    | nil => simp at h
    | cons b Y =>
      simp only [List.map_cons, List.cons.injEq] at h
      obtain ⟨h1, h2⟩ := h
      cases a with
      | mk da va ca sa ra =>
        cases b with
        | mk db vb cb sb rb =>
          simp only [stripIndicators, Pt.mk.injEq, and_true] at h1
          obtain ⟨hd, hv, hc⟩ := h1
          subst hd
          subst hv
          subst hc
          rw [enrichGo_cons, enrichGo_cons]
          congr 1
          exact ih Y (n + 1) _ _ h2

/-! ## The RSI path never produces `NaN` -/

lemma jlt_zero_num (c : JNum) (h : jlt (.num 0) c = true) : ∃ q : ℚ, 0 < q ∧ c = .num q := by
  cases c with
  | num q =>
    refine ⟨q, ?_, rfl⟩
    simpa using h
  | nan => simp [jlt] at h

lemma jlt_num_zero (c : JNum) (h : jlt c (.num 0) = true) : ∃ q : ℚ, q < 0 ∧ c = .num q := by
  cases c with
  | num q =>
    refine ⟨q, ?_, rfl⟩
    simpa using h
  | nan => simp [jlt] at h

lemma gain_nn (c : JNum) : IsNN (if jlt (.num 0) c then c else .num 0) := by
  split
  · obtain ⟨q, hq, rfl⟩ := jlt_zero_num c (by assumption)
    exact ⟨q, hq.le, rfl⟩
  · exact ⟨0, le_refl 0, rfl⟩

lemma loss_nn (c : JNum) : IsNN (if jlt c (.num 0) then jabs c else .num 0) := by
  split
  · obtain ⟨q, _, rfl⟩ := jlt_num_zero c (by assumption)
    exact ⟨|q|, abs_nonneg q, rfl⟩
  · exact ⟨0, le_refl 0, rfl⟩

lemma rs_nn (G L : JNum) (hG : IsNN G) (hL : IsNN L) :
    ∃ q : ℚ, 0 ≤ q ∧ (if L = .num 0 then JNum.num 100 else jdiv G L) = .num q := by
  obtain ⟨g, hg, rfl⟩ := hG
  obtain ⟨l, hl, rfl⟩ := hL
  by_cases h : l = 0
  · exact ⟨100, by norm_num, by simp [h]⟩
  · refine ⟨g / l, div_nonneg hg hl, ?_⟩
    rw [if_neg (by simp [h]), jdiv_num _ _ h]

lemma rsiOut_nn (rs : JNum) (hrs : ∃ q : ℚ, 0 ≤ q ∧ rs = .num q) :
    ∃ q : ℚ, jsub (.num 100) (jdiv (.num 100) (jadd (.num 1) rs)) = .num q := by
  obtain ⟨r, hr, rfl⟩ := hrs
  refine ⟨100 - 100 / (1 + r), ?_⟩
  rw [jadd_num, jdiv_num _ _ (by linarith), jsub_num]

lemma jdiv14_nn (a : JNum) (ha : IsNN a) : IsNN (jdiv a (.num 14)) := by
  obtain ⟨q, hq, rfl⟩ := ha
  exact ⟨q / 14, div_nonneg hq (by norm_num), by rw [jdiv_num _ _ (by norm_num)]⟩

lemma jadd_nn (a b : JNum) (ha : IsNN a) (hb : IsNN b) : IsNN (jadd a b) := by
  obtain ⟨p, hp, rfl⟩ := ha
  obtain ⟨q, hq, rfl⟩ := hb
  exact ⟨p + q, by linarith, rfl⟩

/-- On nonnegative-number state, one loop iteration keeps the state a
nonnegative number and writes an `rsi` that is `none` before index 14 and
an actual number (never `NaN`) from index 14 on — whatever the `price`
and `vals`, `NaN` included. -/
lemma enrichStep_nn (vals : List JNum) (i : Nat) (price ag al : JNum)
    (hag : IsNN ag) (hal : IsNN al) :
    (∃ q : ℚ, (enrichStep vals i price ag al).rsi
        = if i < 14 then none else some (.num q)) ∧
    IsNN (enrichStep vals i price ag al).avgGain ∧
    IsNN (enrichStep vals i price ag al).avgLoss := by
  simp only [enrichStep]
  by_cases hi0 : i = 0
  · subst hi0
    simp only [if_pos rfl]
    exact ⟨⟨0, by norm_num⟩, hag, hal⟩
  · rw [if_neg hi0]
    have hG := gain_nn (jsub price (vals.getD (i - 1) (.num 0)))
    have hL := loss_nn (jsub price (vals.getD (i - 1) (.num 0)))
    by_cases hi14 : i ≤ 14
    · rw [if_pos hi14]
      by_cases hieq : i = 14
      · subst hieq
        rw [if_pos rfl]
        have hfg : IsNN (jdiv (jadd ag _) (.num 14)) := jdiv14_nn _ (jadd_nn _ _ hag hG)
        have hfl : IsNN (jdiv (jadd al _) (.num 14)) := jdiv14_nn _ (jadd_nn _ _ hal hL)
        have hrs := rs_nn _ _ hfg hfl
        obtain ⟨q, hq⟩ := rsiOut_nn _ ⟨hrs.choose, hrs.choose_spec⟩
        refine ⟨⟨q, ?_⟩, hfg, hfl⟩
        rw [if_neg (by omega : ¬ (14:Nat) < 14)]
        exact congrArg some hq
      · rw [if_neg hieq]
        exact ⟨⟨0, by simp [if_pos (by omega : i < 14)]⟩,
          jadd_nn _ _ hag hG, jadd_nn _ _ hal hL⟩
    · rw [if_neg hi14]
      have h13 : IsNN (jmul ag (.num 13)) := by
        obtain ⟨g, hg, rfl⟩ := hag
        exact ⟨g * 13, by linarith, rfl⟩
      have h13' : IsNN (jmul al (.num 13)) := by
        obtain ⟨l, hl, rfl⟩ := hal
        exact ⟨l * 13, by linarith, rfl⟩
      have hfg : IsNN (jdiv (jadd (jmul ag (.num 13)) _) (.num 14)) :=
        jdiv14_nn _ (jadd_nn _ _ h13 hG)
      have hfl : IsNN (jdiv (jadd (jmul al (.num 13)) _) (.num 14)) :=
        jdiv14_nn _ (jadd_nn _ _ h13' hL)
      have hrs := rs_nn _ _ hfg hfl
      obtain ⟨q, hq⟩ := rsiOut_nn _ ⟨hrs.choose, hrs.choose_spec⟩
      refine ⟨⟨q, ?_⟩, hfg, hfl⟩
      rw [if_neg (by omega : ¬ i < 14)]
      exact congrArg some hq

/-- The loop writes `none` into `rsi` before index 14 and an actual
number from index 14 on; it never writes `some NaN`. -/
lemma enrichGo_rsi_nn (vals : List JNum) :
    ∀ (rest : List Pt) (n : Nat) (ag al : JNum), IsNN ag → IsNN al →
      ∀ j, j < rest.length →
        ∃ q : ℚ, ((enrichGo vals rest n ag al).getD j dPt).rsi
          = if n + j < 14 then none else some (.num q) := by
  intro rest
  induction rest with
  | nil => intro n ag al _ _ j hj; simp at hj
  | cons c rest ih =>
    intro n ag al hag hal j hj
    rw [enrichGo_cons]
    obtain ⟨hhead, hg', hl'⟩ := enrichStep_nn vals n c.value ag al hag hal
    cases j with
    | zero =>
      obtain ⟨q, hq⟩ := hhead
      exact ⟨q, by simpa using hq⟩
    | succ j =>
      obtain ⟨q, hq⟩ := ih (n + 1) _ _ hg' hl' j (by simpa using Nat.lt_of_succ_lt_succ hj)
      have hidx : n + 1 + j = n + (j + 1) := by omega
      rw [hidx] at hq
      exact ⟨q, by simpa using hq⟩

/-! ## Facts about `enrichDataWithIndicators` itself -/

lemma copyPoint_eq (p : Pt) : { p with value := p.value } = p := rfl

lemma enrich_copy (l : List Pt) :
    l.map (fun item => { item with value := item.value }) = l := by
  simp only [copyPoint_eq, List.map_id']

lemma enrich_eq_go (l : List Pt) (h : l.length ≠ 0) :
    enrichDataWithIndicators l
      = enrichGo (l.map (fun p => p.value)) l 0 (.num 0) (.num 0) := by
  rw [enrichDataWithIndicators, if_neg h, enrich_copy]

lemma enrich_strip (l : List Pt) :
    (enrichDataWithIndicators l).map stripIndicators = l.map stripIndicators := by
  by_cases h : l.length = 0
  · rw [List.length_eq_zero] at h
    subst h
    rfl
  · rw [enrich_eq_go l h, enrichGo_strip]

lemma enrich_length (l : List Pt) :
    (enrichDataWithIndicators l).length = l.length := by
  have h := congrArg List.length (enrich_strip l)
  simpa using h

lemma map_value_of_strip (X Y : List Pt)
    (h : X.map stripIndicators = Y.map stripIndicators) :
    X.map (fun p => p.value) = Y.map (fun p => p.value) := by
  have hx : X.map (fun p => p.value)
      = (X.map stripIndicators).map (fun p => p.value) := by
    rw [List.map_map]
    rfl
  have hy : Y.map (fun p => p.value)
      = (Y.map stripIndicators).map (fun p => p.value) := by
    rw [List.map_map]
    rfl
  rw [hx, hy, h]

lemma enrich_congr (X Y : List Pt)
    (h : X.map stripIndicators = Y.map stripIndicators) :
    enrichDataWithIndicators X = enrichDataWithIndicators Y := by
  have hlen : X.length = Y.length := by
    have := congrArg List.length h
    simpa using this
  by_cases hx : X.length = 0
  · rw [enrichDataWithIndicators, if_pos hx, enrichDataWithIndicators, if_pos (by omega)]
  · rw [enrich_eq_go X hx, enrich_eq_go Y (by omega), map_value_of_strip X Y h]
    exact enrichGo_congr _ X Y 0 _ _ h

lemma stripIndicators_idem (p : Pt) : stripIndicators (stripIndicators p) = stripIndicators p := rfl

/-! ## Field preservation through enrichment -/

lemma enrich_map_date (l : List Pt) :
    (enrichDataWithIndicators l).map (fun p => p.date) = l.map (fun p => p.date) := by
  have h1 : (enrichDataWithIndicators l).map (fun p => p.date)
      = ((enrichDataWithIndicators l).map stripIndicators).map (fun p => p.date) := by
    rw [List.map_map]
    rfl
  rw [h1, enrich_strip, List.map_map]
  rfl

lemma enrich_map_value (l : List Pt) :
    (enrichDataWithIndicators l).map (fun p => p.value) = l.map (fun p => p.value) := by
  have h1 : (enrichDataWithIndicators l).map (fun p => p.value)
      = ((enrichDataWithIndicators l).map stripIndicators).map (fun p => p.value) := by
    rw [List.map_map]
    rfl
  rw [h1, enrich_strip, List.map_map]
  rfl

lemma enrich_map_comps (l : List Pt) :
    (enrichDataWithIndicators l).map (fun p => p.comps) = l.map (fun p => p.comps) := by
  have h1 : (enrichDataWithIndicators l).map (fun p => p.comps)
      = ((enrichDataWithIndicators l).map stripIndicators).map (fun p => p.comps) := by
    rw [List.map_map]
    rfl
  rw [h1, enrich_strip, List.map_map]
  rfl

/-! ## Sliding-window lemmas -/

lemma lastN_of_le {α : Type} (n : Nat) (l : List α) (h : l.length ≤ n) : lastN n l = l := by
  rw [lastN, Nat.sub_eq_zero_of_le h, List.drop_zero]

lemma lastN_append_lastN {α : Type} (n : Nat) (A B : List α) :
    lastN n (lastN n A ++ B) = lastN n (A ++ B) := by
  simp only [lastN, List.length_append, List.length_drop, List.drop_append_eq_append_drop,
    List.drop_drop]
  congr 2
  · omega
  · omega

lemma lastN_append_big {α : Type} (n : Nat) (A B : List α) (h : n ≤ B.length) :
    lastN n (A ++ B) = B.drop (B.length - n) := by
  rw [lastN, List.length_append, List.drop_append_eq_append_drop,
    List.drop_eq_nil_of_le (by omega), List.nil_append]
  congr 1
  omega

lemma newTickPoint_date (c : List String) (t : TickIn) (p : Pt) :
    (newTickPoint c t p).date = t.now := rfl

lemma newTickPoint_value (c : List String) (t : TickIn) (p : Pt) :
    (newTickPoint c t p).value
      = jfix2 (jmul p.value (jadd (.num 1) (.num t.change))) := rfl

lemma onTick_eq (c : List String) (t : TickIn) (s : List Pt) (h : s.length ≠ 0) :
    onTick c t s = enrichDataWithIndicators
      (if 100 < (s ++ [newTickPoint c t (s.getD (s.length - 1) dPt)]).length
       then (s ++ [newTickPoint c t (s.getD (s.length - 1) dPt)]).tail
       else s ++ [newTickPoint c t (s.getD (s.length - 1) dPt)]) := by
  rw [onTick, if_neg h]

lemma onTick_step (c : List String) (t : TickIn) (s : List Pt)
    (h1 : s.length ≠ 0) (h2 : s.length ≤ 100) :
    (onTick c t s).map (fun p => p.date)
        = lastN 100 ((s.map fun p => p.date) ++ [t.now]) ∧
    (onTick c t s).length = min (s.length + 1) 100 := by
  rw [onTick_eq c t s h1]
  by_cases hbig : s.length = 100
  · rw [if_pos (by simp [hbig])]
    cases s with
    | nil => simp at h1
    | cons a s' =>
      rw [List.cons_append, List.tail_cons]
      constructor
      · rw [enrich_map_date]
        have hlast : lastN 100 (((a :: s').map fun p => p.date) ++ [t.now])
            = (s'.map fun p => p.date) ++ [t.now] := by
          rw [lastN]
          have hlen : (((a :: s').map fun p => p.date) ++ [t.now]).length - 100 = 1 := by
            simp at hbig ⊢
            omega
          rw [hlen, List.drop_one, List.map_cons, List.cons_append, List.tail_cons]
        rw [hlast]
        simp [newTickPoint_date]
      · rw [enrich_length]
        simp at hbig ⊢
        omega
  · rw [if_neg (by simp; omega)]
    constructor
    · rw [enrich_map_date, List.map_append]
      rw [lastN_of_le]
      · rfl
      · simp
        omega
    · rw [enrich_length]
      simp
      omega

lemma runTicks_cons (c : List String) (t : TickIn) (ts : List TickIn) (s : List Pt) :
    runTicks c s (t :: ts) = runTicks c (onTick c t s) ts := rfl

/-- After any run of ticks from a window of 1 to 100 points, the window
holds the trailing 100 timestamps of the original dates followed by the
tick timestamps, and its length is `min (start + ticks) 100`. -/
lemma runTicks_window (c : List String) :
    ∀ (ts : List TickIn) (s : List Pt), s.length ≠ 0 → s.length ≤ 100 →
      (runTicks c s ts).map (fun p => p.date)
          = lastN 100 ((s.map fun p => p.date) ++ ts.map (fun t => t.now)) ∧
      (runTicks c s ts).length = min (s.length + ts.length) 100 := by
  intro ts
  induction ts with
  | nil =>
    intro s h1 h2
    constructor
    · rw [List.map_nil, List.append_nil, lastN_of_le 100 _ (by simpa using h2)]
      rfl
    · simp only [runTicks, List.foldl_nil, List.length_nil]
      omega
  | cons t ts ih =>
    intro s h1 h2
    have hstep := onTick_step c t s h1 h2
    have h1' : (onTick c t s).length ≠ 0 := by rw [hstep.2]; omega
    have h2' : (onTick c t s).length ≤ 100 := by rw [hstep.2]; omega
    obtain ⟨hihd, hihl⟩ := ih (onTick c t s) h1' h2'
    constructor
    · rw [runTicks_cons, hihd, hstep.1, lastN_append_lastN, List.append_assoc]
      rfl
    · rw [runTicks_cons, hihl, hstep.2]
      simp
      omega

lemma onTick_length_big (c : List String) (t : TickIn) (s : List Pt)
    (h : 100 ≤ s.length) :
    (onTick c t s).length = s.length := by
  rw [onTick_eq c t s (by omega), if_pos (by simp; omega), enrich_length]
  simp

lemma runTicks_length_big (c : List String) :
    ∀ (ts : List TickIn) (s : List Pt), 100 ≤ s.length →
      (runTicks c s ts).length = s.length := by
  intro ts
  induction ts with
  | nil => intro s _; rfl
  | cons t ts ih =>
    intro s h
    have h1 := onTick_length_big c t s h
    rw [runTicks_cons, ih _ (by omega), h1]

/-! ## Comparison-field behaviour of a tick -/

lemma lookup_filterMap_if {α : Type} (g : String → α) (P : String → Bool) :
    ∀ (cs : List String) (comp : String),
      (cs.filterMap (fun c => if P c then some (c, g c) else none)).lookup comp
        = if comp ∈ cs ∧ P comp then some (g comp) else none := by
  intro cs
  induction cs with
  | nil => intro comp; simp
  | cons a cs ih =>
    intro comp
    rw [List.filterMap_cons]
    by_cases ha : P a
    · rw [if_pos ha]
      by_cases hc : comp = a
      · subst hc
        simp [List.lookup, ha]
      · have hbeq : (comp == a) = false := by simpa using hc
        simp only [List.lookup, hbeq, ih]
        exact (if_congr (by simp [List.mem_cons, hc]) rfl rfl).symm
    · rw [if_neg ha]
      by_cases hc : comp = a
      · subst hc
        rw [ih]
        simp [ha]
      · rw [ih]
        exact (if_congr (by simp [List.mem_cons, hc]) rfl rfl).symm

lemma newTickPoint_lookup (comparisons : List String) (t : TickIn) (lastItem : Pt)
    (comp : String) :
    (newTickPoint comparisons t lastItem).comps.lookup comp
      = if comp ∈ comparisons ∧ truthy (lastItem.comps.lookup comp) then
          some (jfix2 (jmul ((lastItem.comps.lookup comp).getD (.num 0))
            (jadd (.num 1) (.num (t.compChanges comp)))))
        else none := by
  exact lookup_filterMap_if
    (fun c => jfix2 (jmul ((lastItem.comps.lookup c).getD (.num 0))
      (jadd (.num 1) (.num (t.compChanges c)))))
    (fun c => truthy (lastItem.comps.lookup c)) comparisons comp

/-! ## Top-level enrichment facts -/

lemma enrich_rsi_spec (l : List Pt) (v : List ℚ)
    (hv : l.map (fun p => p.value) = v.map JNum.num) (i : Nat) (hi : i < l.length) :
    ((enrichDataWithIndicators l).getD i dPt).rsi
      = if i < 14 then none else some (.num (wilderRsi v i)) := by
  have hlen0 : l.length ≠ 0 := by omega
  have hval : ∀ j, j < l.length → (l.getD j dPt).value = .num (v.getD (0 + j) 0) := by
    intro j hj
    have h1 := getD_map_eq (fun p => p.value) l j dPt
    have h2 := getD_map_eq JNum.num v j 0
    rw [Nat.zero_add]
    calc (l.getD j dPt).value
        = (l.map (fun p => p.value)).getD j (.num 0) := h1.symm
      _ = (v.map JNum.num).getD j (.num 0) := by rw [hv]
      _ = .num (v.getD j 0) := h2
  have hgo := enrichGo_rsi v l 0 hval i hi
  have hst1 : (stateEnter v 0).1 = 0 := by norm_num [stateEnter, gainSum]
  have hst2 : (stateEnter v 0).2 = 0 := by norm_num [stateEnter, lossSum]
  rw [hst1, hst2, Nat.zero_add] at hgo
  rw [enrich_eq_go l hlen0, hv]
  exact hgo

lemma enrich_sma_eq (l : List Pt) (i : Nat) (hi : i < l.length) :
    ((enrichDataWithIndicators l).getD i dPt).sma
      = if 19 ≤ i then some (jdiv (smaSum (l.map fun p => p.value) i) (.num 20)) else none := by
  have hlen0 : l.length ≠ 0 := by omega
  rw [enrich_eq_go l hlen0]
  have h := enrichGo_sma (l.map fun p => p.value) l 0 (.num 0) (.num 0) i hi
  rw [Nat.zero_add] at h
  exact h

lemma enrich_rsi_not_nan (l : List Pt) (i : Nat) (hi : i < l.length) :
    ∃ q : ℚ, ((enrichDataWithIndicators l).getD i dPt).rsi
      = if i < 14 then none else some (.num q) := by
  have hlen0 : l.length ≠ 0 := by omega
  rw [enrich_eq_go l hlen0]
  have h := enrichGo_rsi_nn (l.map fun p => p.value) l 0 (.num 0) (.num 0)
    ⟨0, le_refl 0, rfl⟩ ⟨0, le_refl 0, rfl⟩ i hi
  obtain ⟨q, hq⟩ := h
  rw [Nat.zero_add] at hq
  exact ⟨q, hq⟩

lemma enrich_value_getD (l : List Pt) (i : Nat) :
    ((enrichDataWithIndicators l).getD i dPt).value = (l.getD i dPt).value := by
  have h1 := getD_map_eq (fun p => p.value) (enrichDataWithIndicators l) i dPt
  have h2 := getD_map_eq (fun p => p.value) l i dPt
  calc ((enrichDataWithIndicators l).getD i dPt).value
      = ((enrichDataWithIndicators l).map (fun p => p.value)).getD i (.num 0) := h1.symm
    _ = (l.map (fun p => p.value)).getD i (.num 0) := by rw [enrich_map_value]
    _ = (l.getD i dPt).value := h2

lemma foldl_jadd_nan_acc (g : Nat → JNum) :
    ∀ (L : List Nat), L.foldl (fun s j => jadd s (g j)) .nan = .nan := by
  intro L
  induction L with
  | nil => rfl
  | cons y t ih => rw [List.foldl_cons, jadd_nan_left]; exact ih

lemma foldl_jadd_nan (g : Nat → JNum) :
    ∀ (L : List Nat) (a : JNum), (∃ x ∈ L, g x = .nan) →
      L.foldl (fun s j => jadd s (g j)) a = .nan := by
  intro L
  induction L with
  | nil => intro a h; simp at h
  | cons y t ih =>
    intro a h
    obtain ⟨x, hx, hgx⟩ := h
    rw [List.foldl_cons]
    rcases List.mem_cons.mp hx with h1 | h1
    · subst h1
      rw [hgx, jadd_nan_right]
      exact foldl_jadd_nan_acc g t
    · exact ih _ ⟨x, h1, hgx⟩

/-- A `NaN` value anywhere inside the 20-point window poisons the SMA sum. -/
lemma smaSum_nan (vals : List JNum) (i k : Nat) (hk : k ≤ 19)
    (h : vals.getD (i - k) (.num 0) = .nan) : smaSum vals i = .nan := by
  rw [smaSum]
  exact foldl_jadd_nan _ (List.range 20) _ ⟨k, by simp [List.mem_range]; omega, h⟩

/-! ## Claim theorems -/

/-- Claim C2 (code bug exhibited): after `close()` is called while the
socket is still connecting, no tick is emitted immediately (the interval
is clear), but the constructor's pending connection timeout was not
cancelled; when it fires it starts the stream, so ticks are emitted
after `stop()` returned — contradicting the claimed guarantee. -/
theorem c2_ticks_after_stop :
    emitsTick (socketClose mockWebSocketNew) = false ∧
    emitsTick (connectTimeoutFire (socketClose mockWebSocketNew)) = true := ⟨rfl, rfl⟩

/-- Claim C1 (counterexample): starting a live session from a historical
series of 101 points and delivering 100 ticks leaves the window at 101
points, not 100 — each tick evicts at most one point, so a start longer
than 100 never shrinks to 100. -/
theorem c1_counterexample :
    (runTicks [] (List.replicate 101 dPt) (List.replicate 100 tIn0)).length ≠ 100 ∧
    (runTicks [] (List.replicate 101 dPt) (List.replicate 100 tIn0)).length = 101 := by
  have h := runTicks_length_big [] (List.replicate 100 tIn0) (List.replicate 101 dPt) (by simp)
  rw [h]
  simp

/-- Claim C1 (amended): for a live session started from a non-empty
historical series of at most 100 points, after at least 100 ticks the
window length is exactly 100 and the retained timestamps are exactly
those of the 100 most recent ticks (strict FIFO eviction), the oldest
retained point being the 100th-most-recent tick. -/
theorem c1_window_amended (comparisons : List String) (s : List Pt) (ts : List TickIn)
    (h1 : s.length ≠ 0) (h2 : s.length ≤ 100) (h3 : 100 ≤ ts.length) :
    (runTicks comparisons s ts).length = 100 ∧
    (runTicks comparisons s ts).map (fun p => p.date)
      = (ts.map (fun t => t.now)).drop (ts.length - 100) := by
  obtain ⟨hd, hl⟩ := runTicks_window comparisons ts s h1 h2
  constructor
  · rw [hl]
    omega
  · rw [hd, lastN_append_big 100 _ _ (by simpa using h3)]
    congr 1
    simp

/-- Witness for the amended C1 at a concrete session. -/
theorem c1_window_amended_witness :
    (runTicks [] [dPt] (List.replicate 100 tIn0)).length = 100 :=
  (c1_window_amended [] [dPt] (List.replicate 100 tIn0) (by simp) (by simp) (by simp)).1

/-- Claim C3: whenever the running average loss is zero at an
RSI-computable index — i.e. the series never falls up to that index, a
constant series in particular — the engine takes `rs = 100`, so the RSI
there is exactly `100 - 100/101 ≈ 99.01`, never `NaN` and never 100. -/
theorem c3_rsi_avgLoss_zero (l : List Pt) (v : List ℚ)
    (hv : l.map (fun p => p.value) = v.map JNum.num) (i : Nat) (hi : i < l.length)
    (h14 : 14 ≤ i) (hmono : ∀ k, k < i → v.getD k 0 ≤ v.getD (k + 1) 0) :
    ((enrichDataWithIndicators l).getD i dPt).rsi = some (.num (100 - 100 / 101)) ∧
    ((enrichDataWithIndicators l).getD i dPt).rsi ≠ some .nan ∧
    ((enrichDataWithIndicators l).getD i dPt).rsi ≠ some (.num 100) := by
  have hrsi := enrich_rsi_spec l v hv i hi
  rw [if_neg (by omega)] at hrsi
  have hloss : ∀ k, 1 ≤ k → k ≤ i → lossAt v k = 0 := by
    intro k hk1 hki
    have hm := hmono (k - 1) (by omega)
    have hk : k - 1 + 1 = k := by omega
    rw [hk] at hm
    rw [lossAt]
    exact max_eq_right (by linarith)
  have hzero : ∀ j, j ≤ i - 14 → (wilderAvg v j).2 = 0 := by
    intro j
    induction j with
    | zero =>
      intro _
      show lossSum v 14 / 14 = 0
      have hsum : lossSum v 14 = 0 := by
        rw [lossSum]
        apply List.sum_eq_zero
        intro x hx
        obtain ⟨k, hk, rfl⟩ := List.mem_map.mp hx
        exact hloss (k + 1) (by omega) (by simp [List.mem_range] at hk; omega)
      rw [hsum]
      norm_num
    | succ j ihj =>
      intro hj
      show ((wilderAvg v j).2 * 13 + lossAt v (14 + (j + 1))) / 14 = 0
      rw [ihj (by omega), hloss (14 + (j + 1)) (by omega) (by omega)]
      norm_num
  have hrs : wilderRs v i = 100 := by
    rw [wilderRs, if_pos (hzero (i - 14) (le_refl _))]
  have hval : wilderRsi v i = 100 - 100 / 101 := by
    rw [wilderRsi, hrs]
    norm_num
  rw [hval] at hrsi
  refine ⟨hrsi, ?_, ?_⟩
  · rw [hrsi]
    simp
  · rw [hrsi]
    simp only [ne_eq, Option.some.injEq, JNum.num.injEq]
    norm_num

/-- Witness for C3: a constant 15-point series at value 50. -/
theorem c3_rsi_avgLoss_zero_witness :
    ((enrichDataWithIndicators ((List.replicate 15 (50:ℚ)).map mkPt)).getD 14 dPt).rsi
      = some (.num (100 - 100 / 101)) :=
  (c3_rsi_avgLoss_zero ((List.replicate 15 (50:ℚ)).map mkPt) (List.replicate 15 (50:ℚ))
    (by simp [mkPt]) 14 (by simp) (by norm_num)
    (by
      intro k hk
      have h1 : (List.replicate 15 (50:ℚ)).getD k 0 = 50 := by
        rw [List.getD_eq_getElem?_getD, List.getElem?_replicate, if_pos (by omega)]
        rfl
      have h2 : (List.replicate 15 (50:ℚ)).getD (k + 1) 0 = 50 := by
        rw [List.getD_eq_getElem?_getD, List.getElem?_replicate, if_pos (by omega)]
        rfl
      rw [h1, h2])).1

/-- Claim C4: the enrichment's `sma` at 0-based index `i` is absent for
`i < 19` and equals the arithmetic mean of the 20 trailing input values
`value[i-19..i]` for `i ≥ 19`; hence inputs shorter than 20 get no SMA
anywhere, and index 19 carries the mean of values 0–19. -/
theorem c4_sma_window_mean (l : List Pt) (v : List ℚ)
    (hv : l.map (fun p => p.value) = v.map JNum.num) (i : Nat) (hi : i < l.length) :
    (i < 19 → ((enrichDataWithIndicators l).getD i dPt).sma = none) ∧
    (19 ≤ i → ((enrichDataWithIndicators l).getD i dPt).sma
        = some (.num (((v.drop (i - 19)).take 20).sum / 20))) := by
  have hlv : l.length = v.length := by
    have h := congrArg List.length hv
    simpa using h
  have hsma := enrich_sma_eq l i hi
  constructor
  · intro h
    rw [hsma, if_neg (by omega)]
  · intro h
    rw [hsma, if_pos h, hv, smaSum_num, jdiv_num _ _ (by norm_num),
      rangeSum_slice v 20 i (by omega) (by omega)]
    have h1 : i + 1 - 20 = i - 19 := by omega
    rw [h1]

/-- Witness for C4: a constant 20-point series, index 19. -/
theorem c4_sma_window_mean_witness :
    ((enrichDataWithIndicators ((List.replicate 20 (50:ℚ)).map mkPt)).getD 19 dPt).sma
      = some (.num ((((List.replicate 20 (50:ℚ)).drop (19 - 19)).take 20).sum / 20)) :=
  (c4_sma_window_mean ((List.replicate 20 (50:ℚ)).map mkPt) (List.replicate 20 (50:ℚ))
    (by simp [mkPt]) 19 (by simp)).2 (le_refl 19)

/-- Claim C5: the enrichment computes RSI by Wilder's method — absent at
indices 0–13, seeded at index 14 from the simple averages of the first
14 gains and losses, and for `i > 14` following
`avgGain' = (avgGain*13 + gain_i)/14`, `avgLoss' = (avgLoss*13 + loss_i)/14`,
`rs = avgLoss' = 0 ? 100 : avgGain'/avgLoss'`, `rsi = 100 - 100/(1+rs)`,
with gains/losses as `max`-truncated differences (`wilderRsi`). -/
theorem c5_rsi_wilder (l : List Pt) (v : List ℚ)
    (hv : l.map (fun p => p.value) = v.map JNum.num) (i : Nat) (hi : i < l.length) :
    (i ≤ 13 → ((enrichDataWithIndicators l).getD i dPt).rsi = none) ∧
    (14 ≤ i → ((enrichDataWithIndicators l).getD i dPt).rsi
        = some (.num (wilderRsi v i))) := by
  have h := enrich_rsi_spec l v hv i hi
  constructor
  · intro h13
    rw [h, if_pos (by omega)]
  · intro h14
    rw [h, if_neg (by omega)]

/-- Witness for C5 on a varied 16-point series at index 15. -/
theorem c5_rsi_wilder_witness :
    (15 ≤ 13 → ((enrichDataWithIndicators
        (([10, 11, 9, 12, 8, 13, 7, 14, 6, 15, 5, 16, 4, 17, 3, 18] : List ℚ).map mkPt)).getD
        15 dPt).rsi = none) ∧
    (14 ≤ 15 → ((enrichDataWithIndicators
        (([10, 11, 9, 12, 8, 13, 7, 14, 6, 15, 5, 16, 4, 17, 3, 18] : List ℚ).map mkPt)).getD
        15 dPt).rsi
      = some (.num (wilderRsi [10, 11, 9, 12, 8, 13, 7, 14, 6, 15, 5, 16, 4, 17, 3, 18] 15))) :=
  c5_rsi_wilder _ _ (by simp [mkPt]) 15 (by simp)

/-- Claim C6: enrichment returns a sequence of the same length and order
with identical `date`, `value` and comparison fields; the loop writes
only the freshly copied records' `sma`/`rsi`, so the input points are
left unchanged. -/
theorem c6_preserves_input (l : List Pt) :
    (enrichDataWithIndicators l).length = l.length ∧
    (enrichDataWithIndicators l).map (fun p => p.date) = l.map (fun p => p.date) ∧
    (enrichDataWithIndicators l).map (fun p => p.value) = l.map (fun p => p.value) ∧
    (enrichDataWithIndicators l).map (fun p => p.comps) = l.map (fun p => p.comps) :=
  ⟨enrich_length l, enrich_map_date l, enrich_map_value l, enrich_map_comps l⟩

/-- Claim C7 (counterexample): on a 15-point series whose first value is
`NaN`, the RSI at index 14 is present and is not `NaN` — a `NaN` change
fails both `change > 0` and `change < 0`, contributing zero gain and
loss — so non-numeric values do NOT propagate as `NaN` into `rsi`. -/
theorem c7_counterexample :
    (nanPt :: (List.replicate 14 (50:ℚ)).map mkPt).getD 0 dPt = nanPt ∧
    ((enrichDataWithIndicators (nanPt :: (List.replicate 14 (50:ℚ)).map mkPt)).getD 14 dPt).rsi
        ≠ some .nan ∧
    ((enrichDataWithIndicators (nanPt :: (List.replicate 14 (50:ℚ)).map mkPt)).getD 14 dPt).rsi
        ≠ none := by
  refine ⟨rfl, ?_⟩
  have h := enrich_rsi_not_nan (nanPt :: (List.replicate 14 (50:ℚ)).map mkPt) 14 (by simp)
  obtain ⟨q, hq⟩ := h
  rw [if_neg (by omega)] at hq
  rw [hq]
  constructor <;> simp

/-- Claim C7 (amended): the engine never fails — empty and non-array
inputs give the empty sequence — and `NaN` values propagate into the
output `value` and into the SMA of every window containing them, but
never into `rsi`, which stays numeric because `NaN` comparisons are
false and contribute zero gain and loss. -/
theorem c7_nan_amended (l : List Pt) (i k : Nat) (hi : i < l.length) (h19 : 19 ≤ i)
    (hk : k ≤ 19) (hnan : (l.getD (i - k) dPt).value = .nan) :
    enrichDataTotal .nonArray = [] ∧
    enrichDataTotal (.arr []) = [] ∧
    ((enrichDataWithIndicators l).getD i dPt).sma = some .nan ∧
    ((enrichDataWithIndicators l).getD i dPt).value = (l.getD i dPt).value ∧
    ((enrichDataWithIndicators l).getD i dPt).rsi ≠ some .nan := by
  refine ⟨rfl, rfl, ?_, enrich_value_getD l i, ?_⟩
  · have hvnan : (l.map (fun p => p.value)).getD (i - k) (.num 0) = .nan := by
      have h := getD_map_eq (fun p => p.value) l (i - k) dPt
      exact h.trans hnan
    rw [enrich_sma_eq l i hi, if_pos h19, smaSum_nan (l.map fun p => p.value) i k hk hvnan]
    rfl
  · obtain ⟨q, hq⟩ := enrich_rsi_not_nan l i hi
    rw [if_neg (by omega)] at hq
    rw [hq]
    simp

/-- Witness for the amended C7: 20 points with a `NaN` first value. -/
theorem c7_nan_amended_witness :
    ((enrichDataWithIndicators (nanPt :: (List.replicate 19 (50:ℚ)).map mkPt)).getD 19 dPt).sma
        = some .nan ∧
    ((enrichDataWithIndicators (nanPt :: (List.replicate 19 (50:ℚ)).map mkPt)).getD 19 dPt).rsi
        ≠ some .nan := by
  have h := c7_nan_amended (nanPt :: (List.replicate 19 (50:ℚ)).map mkPt) 19 19
    (by simp) (le_refl 19) (le_refl 19) (by rfl)
  exact ⟨h.2.2.1, h.2.2.2.2⟩

/-- Claim C8: enrichment is deterministic — the same input gives the
same output — and re-enriching the raw `date`/`value`/comparison data of
an already-enriched output reproduces the entire enriched output,
`sma`/`rsi` included. -/
theorem c8_deterministic_idempotent (l : List Pt) :
    enrichDataWithIndicators l = enrichDataWithIndicators l ∧
    enrichDataWithIndicators ((enrichDataWithIndicators l).map stripIndicators)
      = enrichDataWithIndicators l := by
  refine ⟨rfl, ?_⟩
  apply enrich_congr
  rw [List.map_map]
  have hcomp : stripIndicators ∘ stripIndicators = stripIndicators := by
    funext p
    rfl
  rw [hcomp, enrich_strip]

/-- Claim C9 (counterexample): a tick on last value 100 with change
0.123% yields `Number((100 * 1.00123).toFixed(2)) = 100.12`, not the
exact product `100.123` — the claimed "equals last*(1+c)" ignores the
2-decimal rounding. -/
theorem c9_counterexample :
    (newTickPoint [] ⟨"t", 123 / 100000, fun _ => 0⟩ (mkPt 100)).value
      ≠ .num (100 * (1 + 123 / 100000)) := by
  rw [newTickPoint_value]
  show JNum.num (toFixed2 (100 * (1 + 123 / 100000))) ≠ _
  simp only [ne_eq, JNum.num.injEq]
  rw [toFixed2]
  have hr : round ((100 * (1 + 123 / 100000) : ℚ) * 100) = 10012 := by
    rw [round_eq]
    norm_num
  rw [hr]
  norm_num

/-- Claim C9 (amended): each tick's change, drawn as
`(Math.random() - 0.5) * 0.004`, lies in [-0.2%, +0.2%]; the new primary
value is the previous last value times `(1 + c)` rounded to 2 decimals
(`toFixed(2)`); each truthy comparison series gets its own change
applied to its own last value, also rounded; the timestamp is the
wall-clock time at emission. -/
theorem c9_tick_amended (comparisons : List String) (t : TickIn) (lastItem : Pt)
    (q : ℚ) (hq : lastItem.value = .num q) (r : ℚ) (hr0 : 0 ≤ r) (hr1 : r < 1)
    (comp : String) (p : ℚ) (hmem : comp ∈ comparisons)
    (hcomp : lastItem.comps.lookup comp = some (.num p)) (hp : p ≠ 0) :
    (newTickPoint comparisons t lastItem).value = .num (toFixed2 (q * (1 + t.change))) ∧
    (newTickPoint comparisons t lastItem).date = t.now ∧
    -(1 / 500) ≤ tickChange r ∧ tickChange r ≤ 1 / 500 ∧
    (newTickPoint comparisons t lastItem).comps.lookup comp
      = some (.num (toFixed2 (p * (1 + t.compChanges comp)))) := by
  refine ⟨?_, rfl, ?_, ?_, ?_⟩
  · rw [newTickPoint_value, hq, jadd_num, jmul_num]
    rfl
  · rw [tickChange]
    nlinarith
  · rw [tickChange]
    nlinarith
  · rw [newTickPoint_lookup, if_pos ⟨hmem, by rw [hcomp]; simp [truthy, hp]⟩, hcomp]
    simp only [Option.getD_some, jadd_num, jmul_num]
    rfl

/-- Witness for the amended C9 at a concrete tick. -/
theorem c9_tick_amended_witness :
    (newTickPoint ["X"] tIn0 ⟨"", .num 100, [("X", .num 50)], none, none⟩).value
        = .num (toFixed2 (100 * (1 + tIn0.change))) ∧
    -(1 / 500) ≤ tickChange (1 / 2) ∧ tickChange (1 / 2) ≤ 1 / 500 := by
  have h := c9_tick_amended ["X"] tIn0 ⟨"", .num 100, [("X", .num 50)], none, none⟩
    100 rfl (1 / 2) (by norm_num) (by norm_num) "X" 50 (by simp)
    (by rfl) (by norm_num)
  exact ⟨h.1, h.2.2.1, h.2.2.2.1⟩

/-- Claim C10: a comparison field is carried into the tick's new point
only when the previous point's value under that key is truthy — a
previous value of 0 or `NaN` (not just an absent key) silently omits the
field, and a nonzero numeric value carries a freshly computed one. -/
theorem c10_comparison_truthy (comparisons : List String) (t : TickIn) (lastItem : Pt)
    (comp : String) (q : ℚ) (hmem : comp ∈ comparisons) :
    (lastItem.comps.lookup comp = some (.num 0) ∨ lastItem.comps.lookup comp = some .nan →
      (newTickPoint comparisons t lastItem).comps.lookup comp = none) ∧
    (lastItem.comps.lookup comp = none →
      (newTickPoint comparisons t lastItem).comps.lookup comp = none) ∧
    (lastItem.comps.lookup comp = some (.num q) → q ≠ 0 →
      (newTickPoint comparisons t lastItem).comps.lookup comp
        = some (.num (toFixed2 (q * (1 + t.compChanges comp))))) := by
  refine ⟨?_, ?_, ?_⟩
  · intro h
    rw [newTickPoint_lookup, if_neg]
    rintro ⟨_, ht⟩
    rcases h with h | h <;> rw [h] at ht <;> simp [truthy] at ht
  · intro h
    rw [newTickPoint_lookup, if_neg]
    rintro ⟨_, ht⟩
    rw [h] at ht
    simp [truthy] at ht
  · intro h hq0
    rw [newTickPoint_lookup, if_pos ⟨hmem, by rw [h]; simp [truthy, hq0]⟩, h]
    simp only [Option.getD_some, jadd_num, jmul_num]
    rfl

/-- Witness for C10: a previous comparison value of 0 is dropped. -/
theorem c10_comparison_truthy_witness :
    (newTickPoint ["X"] tIn0 ⟨"", .num 0, [("X", .num 0)], none, none⟩).comps.lookup "X"
      = none :=
  (c10_comparison_truthy ["X"] tIn0 ⟨"", .num 0, [("X", .num 0)], none, none⟩ "X" 1
    (by simp)).1 (Or.inl (by rfl))
